import Mathlib

/-!
# Verification of the yaoj online judge core

A shallow embedding of the judging pipeline (`src/judge.rs`), the dispatcher
(`src/api/jobs.rs`) and the ranklist engine (`src/api/contests.rs`) of the
yaoj repository, together with theorems settling the frozen claims about it.

Modelling conventions:
* `f64` score values are modelled as `Rat` (ℚ); the structural claims checked
  here do not depend on floating-point rounding.
* Machine integers (`u32`) are modelled as `Nat`; the Rust cast
  `as_micros() as u32` truncates, which is rendered as `% 2 ^ 32` at the
  exact places the cast occurs in the source.
* File contents are `List Char`; a failing `read_to_string` (or a failing
  `File::open`) is rendered by an environment record that lists the outcome
  of every I/O action the judge performs, in source order.
* A Rust panic (`unwrap` on an `Err`, `unimplemented!`) is rendered as
  `Option.none` propagating out of the embedded function.
-/

deriving instance DecidableEq for Except

namespace Yaoj

/-- Verdicts, from `JobResult` in `src/api/jobs.rs`. -/
inductive JobResult where
  | Waiting
  | Running
  | Accepted
  | CompilationError
  | CompilationSuccess
  | WrongAnswer
  | RuntimeError
  | TimeLimitExceeded
  | MemoryLimitExceeded
  | SystemError
  | SpjError
  | Skipped
deriving DecidableEq, Repr

/-- Per-case verdict record, from `CaseResult` in `src/api/jobs.rs` as used by
`src/judge.rs` (the judge constructs it with fields `id`, `result`, `time`,
`memory`; the auxiliary `info` string, always `""` on creation, is omitted). -/
structure CaseResult where
  id : Nat
  result : JobResult
  time : Nat
  memory : Nat
deriving DecidableEq, Repr

/-- Problem type, from `ProblemType` in `src/config.rs`. -/
inductive ProblemType where
  | Standard
  | Strict
  | Spj
  | DynamicRanking
deriving DecidableEq, Repr

/-- A test case of a problem, from `Case` in `src/config.rs`.  The
`input_file`/`answer_file` paths are realised through the I/O environment;
`memory_limit` is never read by the judge. -/
structure Case where
  score : Rat
  timeLimit : Nat
deriving DecidableEq, Repr

/-- A problem, from `Problem` in `src/config.rs` (the unused `misc` field is
omitted). -/
structure Problem where
  id : Nat
  name : String
  typ : ProblemType
  cases : List Case
deriving DecidableEq, Repr

/-- Rust `str::trim_end` on a character list: drop trailing whitespace. -/
def trimEnd (l : List Char) : List Char :=
  (l.reverse.dropWhile Char.isWhitespace).reverse

/-- The normalisation performed by `trim` in `src/judge.rs`: trim whitespace
at EOF, then split on `'\n'` and trim each line's trailing whitespace,
concatenating the lines without separators. -/
def trim (buf : List Char) : List Char :=
  let b := trimEnd buf
  ((b.splitOn '\n').map trimEnd).flatten

/-- Outcome of `child.wait_timeout(..)` in `src/judge.rs`:
`exited ok` is `Ok(Some(status))` with `status.success() = ok`;
`timedOut killOk` is `Ok(None)` followed by `child.kill()` whose success is
`killOk`; `waitFailed` is `Err(_)` (after which the child is best-effort
killed). -/
inductive WaitOutcome where
  | exited (ok : Bool)
  | timedOut (killOk : Bool)
  | waitFailed
deriving DecidableEq, Repr

/-- The outcomes of every I/O action `src/judge.rs` performs for one test
case, in source order. `outputRead`/`answerRead` are the results of
`read_to_string` on the reopened output file and the answer file
(`none` = `Err`). Elapsed clock readings are in microseconds. -/
structure CaseEnv where
  inputOpenOk : Bool
  outputCreateOk : Bool
  spawnOk : Bool
  wait : WaitOutcome
  killElapsed : Nat
  runElapsed : Nat
  outputOpenOk : Bool
  answerOpenOk : Bool
  outputRead : Option (List Char)
  answerRead : Option (List Char)
deriving DecidableEq, Repr

/-- The I/O outcomes of a whole judging run: the compile step
(`none` = spawn error, `some ok` = exit status with success `ok`), the
elapsed compile time, and one `CaseEnv` per test case. -/
structure JudgeEnv where
  compileStatus : Option Bool
  compileElapsed : Nat
  cases : List CaseEnv
deriving DecidableEq, Repr

/-- Value returned by `judge`, from `JudgeResult` in `src/judge.rs`. -/
structure JudgeResult where
  result : JobResult
  score : Rat
  cases : List CaseResult
deriving DecidableEq, Repr

/-- The mutable loop state of `judge` in `src/judge.rs`: the `results`
vector, the accumulated `score` and the running overall `result_type`. -/
structure JudgeState where
  results : List CaseResult
  score : Rat
  resultType : JobResult
deriving DecidableEq, Repr

/-- `system_error` in `src/judge.rs` (lines 115-122): push a `SystemError`
case with id `results.len()` and zero time; the overall `result_type` is
not touched. -/
def systemError (st : JudgeState) : JudgeState :=
  { st with results := st.results ++ [⟨st.results.length, .SystemError, 0, 0⟩] }

/-- `update_result` in `src/judge.rs` (lines 169-180): record the first
non-Accepted result into `result_type` and push the case record. -/
def updateResult (st : JudgeState) (id : Nat) (r : JobResult) (time : Nat) :
    JudgeState :=
  { st with
    resultType :=
      if r ≠ .Accepted ∧ st.resultType = .Accepted then r else st.resultType
    results := st.results ++ [⟨id, r, time, 0⟩] }

/-- The body of the per-case loop of `judge` in `src/judge.rs`
(lines 112-336).  `none` is a panic: either `answer.unwrap()` on an `Err`
(reachable because the second read-error check at lines 276/311 re-tests
`output.is_err()` instead of `answer.is_err()`), or the
`unimplemented!()` arm for `Spj`/`DynamicRanking` problems. -/
def runCase (typ : ProblemType) (st : JudgeState) (ce : Case × CaseEnv) :
    Option JudgeState :=
  let c := ce.1
  let e := ce.2
  let id := st.results.length
  if !e.inputOpenOk then some (systemError st)
  else if !e.outputCreateOk then some (systemError st)
  else if !e.spawnOk then some (systemError st)
  else
    match e.wait with
    | .exited false => some (updateResult st id .RuntimeError 0)
    | .timedOut true =>
        some (updateResult st id .TimeLimitExceeded (e.killElapsed % 2 ^ 32))
    | .timedOut false => some (systemError st)
    | .waitFailed => some (systemError st)
    | .exited true =>
      let time := e.runElapsed % 2 ^ 32
      if c.timeLimit ≠ 0 ∧ time > c.timeLimit then
        some (updateResult st id .TimeLimitExceeded time)
      else if !e.outputOpenOk then some (systemError st)
      else if !e.answerOpenOk then some (systemError st)
      else
        match typ with
        | .Standard =>
          match e.outputRead.map trim with
          | none => some (systemError st)
          | some o =>
            -- the source re-checks `output.is_err()` here (dead: output is
            -- `Ok`), then unwraps the answer, panicking on `Err`
            match e.answerRead.map trim with
            | none => none
            | some a =>
              if o = a then
                some (updateResult { st with score := st.score + c.score }
                  id .Accepted time)
              else
                some (updateResult st id .WrongAnswer time)
        | .Strict =>
          match e.outputRead with
          | none => some (systemError st)
          | some o =>
            match e.answerRead with
            | none => none
            | some a =>
              if o = a then
                some (updateResult { st with score := st.score + c.score }
                  id .Accepted time)
              else
                some (updateResult st id .WrongAnswer time)
        | .Spj => none
        | .DynamicRanking => none

/-- The result vector built on compilation failure in `src/judge.rs`
(lines 76-97): case 0 is `CompilationError` with the elapsed compile time,
cases `1..=N` are `Waiting`. -/
def compileErrorCases (p : Problem) (elapsed : Nat) : List CaseResult :=
  ⟨0, .CompilationError, elapsed % 2 ^ 32, 0⟩ ::
    (List.range p.cases.length).map (fun i => ⟨i + 1, .Waiting, 0, 0⟩)

/-- `judge` in `src/judge.rs`: compile, then run every test case.
`none` is a panic of the judging function. -/
def judge (p : Problem) (env : JudgeEnv) : Option JudgeResult :=
  match env.compileStatus with
  | none => some ⟨.CompilationError, 0, compileErrorCases p env.compileElapsed⟩
  | some false =>
      some ⟨.CompilationError, 0, compileErrorCases p env.compileElapsed⟩
  | some true => do
    let init : JudgeState :=
      ⟨[⟨0, .CompilationSuccess, env.compileElapsed % 2 ^ 32, 0⟩], 0, .Accepted⟩
    let fin ← (p.cases.zip env.cases).foldlM (runCase p.typ) init
    some ⟨fin.resultType, fin.score, fin.results⟩

/-! ## Dispatcher and job store (`src/api/jobs.rs`, `src/api/err.rs`) -/

/-- Job lifecycle state, from `JobStatus` in `src/api/jobs.rs`. -/
inductive JobStatus where
  | Queueing
  | Running
  | Finished
  | Canceled
deriving DecidableEq, Repr

/-- A submission, from `Submission` in `src/api/jobs.rs`. -/
structure Submission where
  sourceCode : String
  language : String
  userId : Nat
  contestId : Nat
  problemId : Nat
deriving DecidableEq, Repr

/-- A job, from `Job` in `src/api/jobs.rs`.  `DateTime<Utc>` instants are
modelled as integers. -/
structure Job where
  id : Nat
  createdTime : Int
  updatedTime : Int
  submission : Submission
  state : JobStatus
  result : JobResult
  score : Rat
  cases : List CaseResult
deriving DecidableEq, Repr

/-- Error reasons, from `Reason` in `src/api/err.rs`. -/
inductive Reason where
  | InvalidArgument
  | InvalidState
  | NotFound
  | RateLimit
  | External
  | Internal
  | Forbidden
deriving DecidableEq, Repr

/-- The error messages produced by the dispatcher and `cancel_job`.  The
source formats them as strings; they are modelled as a datatype carrying the
same interpolated data, so that distinctness of messages is constructor
distinctness. -/
inductive ErrMsg where
  | noSuchLanguage (lang : String)
  | noSuchProblem (pid : Nat)
  | noSuchUser (uid : Nat)
  | noSuchContest (cid : Nat)
  | userNotInContest (uid cid : Nat)
  | problemNotInContest (pid cid : Nat)
  | contestNotBegun (cid : Nat)
  | contestEnded (cid : Nat)
  | submissionLimitExceeded
  | messageQueueError
  | jobNotFound (id : Nat)
  | jobNotQueueing (id : Nat)
deriving DecidableEq, Repr

/-- An error, from `Error` in `src/api/err.rs` (the numeric `code` is a
function of `reason` and is omitted). -/
structure Error where
  reason : Reason
  message : ErrMsg
deriving DecidableEq, Repr

/-- A programming language, from `Language` in `src/config.rs`. -/
structure Language where
  name : String
  fileName : String
  command : List String
deriving DecidableEq, Repr

/-- The startup configuration, from `Config` in `src/config.rs` (the server
section is irrelevant here). -/
structure Config where
  problems : List Problem
  languages : List Language
deriving DecidableEq, Repr

/-- `Config::get_lang` in `src/config.rs`. -/
def Config.getLang (c : Config) (lang : String) : Option Language :=
  c.languages.find? (fun l => l.name == lang)

/-- `Config::get_problem` in `src/config.rs`. -/
def Config.getProblem (c : Config) (id : Nat) : Option Problem :=
  c.problems.find? (fun p => p.id == id)

/-- A contest, from `Contest` in `src/api/contests.rs`; the source fields
`from`/`to` are named `fromTime`/`toTime` (`from` is a Lean keyword). -/
structure Contest where
  id : Option Nat
  name : String
  fromTime : Int
  toTime : Int
  problemIds : List Nat
  userIds : List Nat
  submissionLimit : Nat
deriving DecidableEq, Repr

/-- Results of the store queries and clock reads performed by `new_job` in
`src/api/jobs.rs`, in source order: `does_user_exist`, `get_contest`
(`none` = `NotFound`), `Utc::now()` at the contest-window check,
`get_submission_count`, `Utc::now()` at job creation, `jobs_count` (after
its retry loop), and the success of the queue publish. -/
structure DispatchEnv where
  userExists : Bool
  contest : Option Contest
  now : Int
  submissionCount : Nat
  created : Int
  jobsCount : Nat
  publishOk : Bool
deriving DecidableEq, Repr

/-- Externally visible effects of `new_job`: persisting the job row
(`models::new_job`) and publishing the job id to the work queue
(`queue_job`), recorded in the order they are issued. -/
inductive Effect where
  | persistJob (job : Job)
  | publish (id : Nat)
deriving DecidableEq, Repr

/-- The case vector of a freshly created job, from `new_job` in
`src/api/jobs.rs` lines 349-357: one `Waiting` record per id in `0..=N`. -/
def newJobCases (n : Nat) : List CaseResult :=
  (List.range (n + 1)).map (fun id => ⟨id, .Waiting, 0, 0⟩)

/-- The contest-validity block of `new_job` in `src/api/jobs.rs`
lines 276-326, run only when `contest_id ≠ 0`. -/
def contestChecks (env : DispatchEnv) (sub : Submission) (pid : Nat) :
    Except Error Unit :=
  if sub.contestId = 0 then .ok () else
  match env.contest with
  | none => .error ⟨.NotFound, .noSuchContest sub.contestId⟩
  | some contest =>
    if !contest.userIds.contains sub.userId then
      .error ⟨.InvalidArgument, .userNotInContest sub.userId sub.contestId⟩
    else if !contest.problemIds.contains pid then
      .error ⟨.InvalidArgument, .problemNotInContest pid sub.contestId⟩
    else if env.now < contest.fromTime then
      .error ⟨.InvalidArgument, .contestNotBegun sub.contestId⟩
    else if env.now > contest.toTime then
      .error ⟨.InvalidArgument, .contestEnded sub.contestId⟩
    else if env.submissionCount ≥ contest.submissionLimit then
      .error ⟨.RateLimit, .submissionLimitExceeded⟩
    else .ok ()

/-- `new_job` in `src/api/jobs.rs` lines 245-374: validation in source
order, then persist the `Queueing` job and publish its id.  Returns the
HTTP-level outcome together with the list of store/queue effects issued. -/
def newJob (cfg : Config) (env : DispatchEnv) (sub : Submission) :
    Except Error Job × List Effect :=
  match cfg.getLang sub.language with
  | none => (.error ⟨.NotFound, .noSuchLanguage sub.language⟩, [])
  | some _ =>
    match cfg.getProblem sub.problemId with
    | none => (.error ⟨.NotFound, .noSuchProblem sub.problemId⟩, [])
    | some problem =>
      if !env.userExists then
        (.error ⟨.NotFound, .noSuchUser sub.userId⟩, [])
      else
        match contestChecks env sub problem.id with
        | .error e => (.error e, [])
        | .ok _ =>
          let job : Job :=
            { id := env.jobsCount
              createdTime := env.created
              updatedTime := env.created
              submission := sub
              state := .Queueing
              result := .Waiting
              score := 0
              cases := newJobCases problem.cases.length }
          if env.publishOk then
            (.ok job, [.persistJob job, .publish job.id])
          else
            (.error ⟨.External, .messageQueueError⟩, [.persistJob job])

/-- `models::get_job`: the job store is modelled as a list of rows, looked
up by id. -/
def getJob (db : List Job) (id : Nat) : Option Job :=
  db.find? (fun j => j.id == id)

/-- `models::update_job`: full-row replace keyed on `id`. -/
def updateJob (db : List Job) (j : Job) : List Job :=
  db.map (fun k => if k.id == j.id then j else k)

/-- `cancel_job` in `src/api/jobs.rs` lines 508-526: load the job, require
`Queueing`, set the state to `Canceled` and persist.  Returns the updated
store on success. -/
def cancelJob (db : List Job) (id : Nat) : Except Error (List Job) :=
  match getJob db id with
  | none => .error ⟨.NotFound, .jobNotFound id⟩
  | some job =>
    if job.state ≠ .Queueing then
      .error ⟨.InvalidState, .jobNotQueueing id⟩
    else
      .ok (updateJob db { job with state := .Canceled })

/-! ## Ranklist engine (`src/api/contests.rs`) -/

/-- Tie-breaker selector, from `TieBreaker` in `src/api/contests.rs`. -/
inductive TieBreaker where
  | Default
  | SubmissionTime
  | SubmissionCount
  | UserId
deriving DecidableEq, Repr

/-- Per-problem metrics of a user, from `ProblemResult` in
`src/api/contests.rs`; `submission_time` instants are modelled as naturals
(`DateTime::<Utc>::MAX_UTC`, used as the default for users without
submissions, becomes `⊤` of `WithTop Nat`). -/
structure ProblemResult where
  score : Rat
  submissionTime : Nat
  submissionCount : Nat
deriving DecidableEq, Repr

/-- A ranklist row before sorting: a user id with the values of the user's
per-problem result map (`rank_list` entries in `get_rank_list`). -/
abbrev Row := Nat × List ProblemResult

/-- The total score of a user: `a.values().map(|r| r.score).sum()`. -/
def totalScore (rs : List ProblemResult) : Rat :=
  (rs.map (·.score)).sum

/-- The `SubmissionTime` key: the latest submission time across problems,
or `MAX_UTC` (here `⊤`) for a user who never submitted. -/
def timeKey (rs : List ProblemResult) : WithTop Nat :=
  match (rs.map (·.submissionTime)).max? with
  | some t => (t : WithTop Nat)
  | none => ⊤

/-- The `SubmissionCount` key: total submissions across problems. -/
def countKey (rs : List ProblemResult) : Nat :=
  (rs.map (·.submissionCount)).sum

/-- `TieBreaker::compare` in `src/api/contests.rs` lines 166-207: total
score descending first, then the selected tie-breaker key. -/
def TieBreaker.compare (tb : TieBreaker) (a b : Row) : Ordering :=
  match (Ord.compare (totalScore a.2) (totalScore b.2)).swap with
  | .eq =>
    match tb with
    | .Default => .eq
    | .SubmissionTime => Ord.compare (timeKey a.2) (timeKey b.2)
    | .SubmissionCount => Ord.compare (countKey a.2) (countKey b.2)
    | .UserId => Ord.compare a.1 b.1
  | ord => ord

/-- The comparator passed to `rank_list.sort_by` in `get_rank_list`
(lines 312-319): the tie-breaker comparison, refined by ascending user id
when equal. -/
def sortCompare (tb : TieBreaker) (a b : Row) : Ordering :=
  match tb.compare a b with
  | .eq => Ord.compare a.1 b.1
  | ord => ord

/-- The sort performed by `get_rank_list`: Rust `sort_by` is a stable sort
under the comparator, rendered as `mergeSort` with
`le a b ↔ sortCompare tb a b ≠ Greater`. -/
def sortRanklist (tb : TieBreaker) (l : List Row) : List Row :=
  l.mergeSort (fun a b => sortCompare tb a b != Ordering.gt)

/-- The rank column of the response rows after the first (lines 323-342):
at 0-based index `i`, the previous row's rank when the tie breaker declares
the two rows equal, and `i + 1` otherwise.  `i` is the index of the current
row, `lastRank` the rank of the previous row and `prev` the previous row. -/
def ranksAux (tb : TieBreaker) : Nat → Nat → Row → List Row → List Nat
  | _, _, _, [] => []
  | i, lastRank, prev, r :: rs =>
    let rk := if tb.compare r prev = .eq then lastRank else i + 1
    rk :: ranksAux tb (i + 1) rk r rs

/-- The rank column of the `get_rank_list` response: row 0 has rank 1. -/
def ranks (tb : TieBreaker) : List Row → List Nat
  | [] => []
  | r :: rs => 1 :: ranksAux tb 1 1 r rs

/-! ## Invariants of the judging loop -/

/-- A case verdict that participates in the overall result: everything the
loop records through `update_result`, i.e. anything but `Accepted`, with
`SystemError` excluded because `system_error` bypasses `update_result`. -/
def decisive (cr : CaseResult) : Bool :=
  cr.result != JobResult.Accepted && cr.result != JobResult.SystemError

/-- The first verdict in a case list that is neither `Accepted` nor
`SystemError`, or `Accepted` if there is none. -/
def firstDecisive (cs : List CaseResult) : JobResult :=
  match cs.find? decisive with
  | some cr => cr.result
  | none => .Accepted

/-- Sum of the configured scores of the accepted cases, over a list pairing
each case configuration with its recorded verdict. -/
def accScore : List (Case × CaseResult) → Rat
  | [] => 0
  | (c, cr) :: rest =>
      (if cr.result = JobResult.Accepted then c.score else 0) + accScore rest

theorem accScore_append (a b : List (Case × CaseResult)) :
    accScore (a ++ b) = accScore a + accScore b := by
  induction a with
  | nil => simp [accScore]
  | cons x xs ih =>
    obtain ⟨c, cr⟩ := x
    show (if cr.result = JobResult.Accepted then c.score else 0) + accScore (xs ++ b)
        = (if cr.result = JobResult.Accepted then c.score else 0) + accScore xs
            + accScore b
    rw [ih, add_assoc]

theorem accScore_eq_zero {l : List (Case × CaseResult)}
    (h : ∀ x ∈ l, x.2.result ≠ JobResult.Accepted) : accScore l = 0 := by
  induction l with
  | nil => rfl
  | cons x xs ih =>
    obtain ⟨c, cr⟩ := x
    have hx : cr.result ≠ JobResult.Accepted := h (c, cr) (List.mem_cons_self _ _)
    simp only [accScore, if_neg hx, ih fun y hy => h y (List.mem_cons_of_mem _ hy)]
    ring

theorem find?_decisive_eq_none {l : List CaseResult}
    (h : firstDecisive l = .Accepted) : l.find? decisive = none := by
  cases hf : l.find? decisive with
  | none => rfl
  | some cr =>
    have hd := List.find?_some hf
    have h2 : cr.result = JobResult.Accepted := by
      have := h
      unfold firstDecisive at this
      rw [hf] at this
      exact this
    simp [decisive, h2] at hd

theorem firstDecisive_append_of_accepted {l : List CaseResult}
    {x : CaseResult} (h : firstDecisive l = .Accepted) :
    firstDecisive (l ++ [x]) = if decisive x then x.result else .Accepted := by
  have hf := find?_decisive_eq_none h
  unfold firstDecisive
  rw [List.find?_append, hf]
  by_cases hx : decisive x
  · simp [List.find?_cons, hx]
  · simp [List.find?_cons, hx]

theorem firstDecisive_append_of_ne {l : List CaseResult} {x : CaseResult}
    (h : firstDecisive l ≠ .Accepted) :
    firstDecisive (l ++ [x]) = firstDecisive l := by
  cases hf : l.find? decisive with
  | none => exact absurd (by unfold firstDecisive; rw [hf]) h
  | some cr =>
    unfold firstDecisive
    rw [List.find?_append, hf]
    rfl

/-- The invariant of the per-case loop of `judge`, after having processed
the case configurations `processed`: the results vector has one record per
processed case plus the compilation pseudo-case, ids are positional, the
score is the sum of the accepted cases' configured scores, and the running
overall result is the first decisive verdict. -/
structure LoopInv (processed : List Case) (st : JudgeState) : Prop where
  len : st.results.length = processed.length + 1
  ids : st.results.map (·.id) = List.range (processed.length + 1)
  score : st.score = accScore (processed.zip (st.results.drop 1))
  overall : st.resultType = firstDecisive (st.results.drop 1)

theorem LoopInv.drop_len {processed : List Case} {st : JudgeState}
    (h : LoopInv processed st) :
    (st.results.drop 1).length = processed.length := by
  simp [List.length_drop, h.len]

theorem LoopInv.append {processed : List Case} {st : JudgeState}
    (h : LoopInv processed st) (c : Case) (x : CaseResult)
    (hid : x.id = st.results.length) :
    ((processed ++ [c]).zip ((st.results ++ [x]).drop 1))
      = processed.zip (st.results.drop 1) ++ [(c, x)] ∧
    (st.results ++ [x]).drop 1 = st.results.drop 1 ++ [x] ∧
    (st.results ++ [x]).length = processed.length + 1 + 1 ∧
    (st.results ++ [x]).map (·.id) = List.range (processed.length + 1 + 1) := by
  have h1 : 1 ≤ st.results.length := by rw [h.len]; omega
  have hdrop : (st.results ++ [x]).drop 1 = st.results.drop 1 ++ [x] :=
    List.drop_append_of_le_length h1
  refine ⟨?_, hdrop, by simp [h.len], ?_⟩
  · rw [hdrop, List.zip_append h.drop_len.symm]
    rfl
  · rw [List.map_append, h.ids]
    simp only [List.map_cons, List.map_nil, hid, h.len]
    exact (List.range_succ _).symm

/-- Pushing a `SystemError` case through `system_error` preserves the loop
invariant with the new case counted. -/
theorem LoopInv.systemError {processed : List Case} {st : JudgeState}
    (h : LoopInv processed st) (c : Case) :
    LoopInv (processed ++ [c]) (systemError st) := by
  obtain ⟨hz, hd, hl, hi⟩ :=
    h.append c ⟨st.results.length, .SystemError, 0, 0⟩ rfl
  have hx : (Yaoj.systemError st).results
      = st.results ++ [⟨st.results.length, .SystemError, 0, 0⟩] := rfl
  refine ⟨by rw [hx, hl]; simp, by rw [hx, hi]; simp, ?_, ?_⟩
  · show st.score = _
    rw [hx, hz, accScore_append, h.score]
    simp [accScore]
  · show st.resultType = _
    rw [hx, hd]
    by_cases ha : st.resultType = .Accepted
    · rw [ha, firstDecisive_append_of_accepted (h.overall.symm.trans ha)]
      simp [decisive]
    · rw [firstDecisive_append_of_ne fun hc => ha (h.overall.trans hc),
        ← h.overall]

/-- Pushing a verdict other than `SystemError` through `update_result`
(with the score already bumped by the case's score when the verdict is
`Accepted`) preserves the loop invariant with the new case counted. -/
theorem LoopInv.updateResult {processed : List Case} {st : JudgeState}
    (h : LoopInv processed st) (c : Case) (r : JobResult) (t : Nat)
    (hr : r ≠ .SystemError) :
    LoopInv (processed ++ [c])
      (Yaoj.updateResult
        (if r = .Accepted then { st with score := st.score + c.score } else st)
        st.results.length r t) := by
  set st0 : JudgeState :=
    if r = .Accepted then { st with score := st.score + c.score } else st with hst0
  have hres : st0.results = st.results := by
    by_cases hacc : r = .Accepted <;> simp [hst0, hacc]
  have hrt : st0.resultType = st.resultType := by
    by_cases hacc : r = .Accepted <;> simp [hst0, hacc]
  obtain ⟨hz, hd, hl, hi⟩ := h.append c ⟨st.results.length, r, t, 0⟩ rfl
  have hres' : (Yaoj.updateResult st0 st.results.length r t).results
      = st.results ++ [⟨st.results.length, r, t, 0⟩] := by
    rw [show (Yaoj.updateResult st0 st.results.length r t).results
          = st0.results ++ [⟨st.results.length, r, t, 0⟩] from rfl, hres]
  refine ⟨by rw [hres', hl]; simp, by rw [hres', hi]; simp, ?_, ?_⟩
  · show st0.score = _
    rw [hres', hz, accScore_append]
    by_cases hacc : r = .Accepted
    · have hs : st0.score = st.score + c.score := by simp [hst0, hacc]
      rw [hs, h.score]
      simp [accScore, hacc]
    · have hs : st0.score = st.score := by simp [hst0, hacc]
      rw [hs, h.score]
      simp [accScore, hacc]
  · show (if r ≠ .Accepted ∧ st0.resultType = .Accepted then r
        else st0.resultType) = _
    rw [hres', hd, hrt]
    by_cases ha : st.resultType = .Accepted
    · rw [firstDecisive_append_of_accepted (h.overall.symm.trans ha)]
      by_cases hacc : r = .Accepted
      · simp [ha, hacc, decisive]
      · simp only [decisive]
        have h1 : ((⟨st.results.length, r, t, 0⟩ : CaseResult).result
            != JobResult.Accepted) = true := by simpa using hacc
        have h2 : ((⟨st.results.length, r, t, 0⟩ : CaseResult).result
            != JobResult.SystemError) = true := by simpa using hr
        simp [ha, hacc, h1, h2]
    · rw [firstDecisive_append_of_ne fun hc => ha (h.overall.trans hc),
        ← h.overall]
      simp [ha]

/-- Every `some` outcome of the loop body preserves the loop invariant. -/
theorem LoopInv.runCase {typ : ProblemType} {processed : List Case}
    {st st' : JudgeState} {c : Case} {e : CaseEnv}
    (h : LoopInv processed st) (hr : runCase typ st (c, e) = some st') :
    LoopInv (processed ++ [c]) st' := by
  unfold Yaoj.runCase at hr
  simp only at hr
  by_cases h1 : e.inputOpenOk
  case neg =>
    simp [h1] at hr
    exact hr ▸ h.systemError c
  rw [if_neg (by simp [h1])] at hr
  by_cases h2 : e.outputCreateOk
  case neg =>
    simp [h2] at hr
    exact hr ▸ h.systemError c
  rw [if_neg (by simp [h2])] at hr
  by_cases h3 : e.spawnOk
  case neg =>
    simp [h3] at hr
    exact hr ▸ h.systemError c
  rw [if_neg (by simp [h3])] at hr
  cases hw : e.wait with
  | exited ok =>
    cases ok with
    | false =>
      rw [hw] at hr
      simp only [Option.some.injEq] at hr
      have := h.updateResult c .RuntimeError 0 (by simp)
      rw [if_neg (by simp)] at this
      exact hr ▸ this
    | true =>
      rw [hw] at hr
      simp only at hr
      by_cases h4 : c.timeLimit ≠ 0 ∧ e.runElapsed % 2 ^ 32 > c.timeLimit
      case pos =>
        rw [if_pos h4] at hr
        simp only [Option.some.injEq] at hr
        have := h.updateResult c .TimeLimitExceeded (e.runElapsed % 2 ^ 32)
          (by simp)
        rw [if_neg (by simp)] at this
        exact hr ▸ this
      rw [if_neg h4] at hr
      by_cases h5 : e.outputOpenOk
      case neg =>
        simp [h5] at hr
        exact hr ▸ h.systemError c
      rw [if_neg (by simp [h5])] at hr
      by_cases h6 : e.answerOpenOk
      case neg =>
        simp [h6] at hr
        exact hr ▸ h.systemError c
      rw [if_neg (by simp [h6])] at hr
      cases typ with
      | Standard =>
        simp only at hr
        cases ho : e.outputRead.map trim with
        | none =>
          rw [ho] at hr
          simp only [Option.some.injEq] at hr
          exact hr ▸ h.systemError c
        | some o =>
          rw [ho] at hr
          cases ha : e.answerRead.map trim with
          | none => rw [ha] at hr; exact absurd hr (by simp)
          | some a =>
            rw [ha] at hr
            simp only at hr
            by_cases heq : o = a
            · rw [if_pos heq] at hr
              simp only [Option.some.injEq] at hr
              have := h.updateResult c .Accepted (e.runElapsed % 2 ^ 32)
                (by simp)
              rw [if_pos rfl] at this
              exact hr ▸ this
            · rw [if_neg heq] at hr
              simp only [Option.some.injEq] at hr
              have := h.updateResult c .WrongAnswer (e.runElapsed % 2 ^ 32)
                (by simp)
              rw [if_neg (by simp)] at this
              exact hr ▸ this
      | Strict =>
        simp only at hr
        cases ho : e.outputRead with
        | none =>
          rw [ho] at hr
          simp only [Option.some.injEq] at hr
          exact hr ▸ h.systemError c
        | some o =>
          rw [ho] at hr
          cases ha : e.answerRead with
          | none => rw [ha] at hr; exact absurd hr (by simp)
          | some a =>
            rw [ha] at hr
            simp only at hr
            by_cases heq : o = a
            · rw [if_pos heq] at hr
              simp only [Option.some.injEq] at hr
              have := h.updateResult c .Accepted (e.runElapsed % 2 ^ 32)
                (by simp)
              rw [if_pos rfl] at this
              exact hr ▸ this
            · rw [if_neg heq] at hr
              simp only [Option.some.injEq] at hr
              have := h.updateResult c .WrongAnswer (e.runElapsed % 2 ^ 32)
                (by simp)
              rw [if_neg (by simp)] at this
              exact hr ▸ this
      | Spj => exact absurd hr (by simp)
      | DynamicRanking => exact absurd hr (by simp)
  | timedOut killOk =>
    cases killOk with
    | true =>
      rw [hw] at hr
      simp only [Option.some.injEq] at hr
      have := h.updateResult c .TimeLimitExceeded (e.killElapsed % 2 ^ 32)
        (by simp)
      rw [if_neg (by simp)] at this
      exact hr ▸ this
    | false =>
      rw [hw] at hr
      simp only [Option.some.injEq] at hr
      exact hr ▸ h.systemError c
  | waitFailed =>
    rw [hw] at hr
    simp only [Option.some.injEq] at hr
    exact hr ▸ h.systemError c

/-- The loop invariant carries through the whole per-case fold. -/
theorem LoopInv.foldlM {typ : ProblemType} :
    ∀ (l : List (Case × CaseEnv)) {processed : List Case}
      {st st' : JudgeState},
      LoopInv processed st → l.foldlM (Yaoj.runCase typ) st = some st' →
      LoopInv (processed ++ l.map Prod.fst) st'
  | [], _, st, st', h, hf => by
    simp only [List.foldlM_nil] at hf
    cases hf
    simpa using h
  | (c, e) :: rest, processed, st, st', h, hf => by
    simp only [List.foldlM_cons] at hf
    cases hst1 : Yaoj.runCase typ st (c, e) with
    | none => rw [hst1] at hf; exact absurd hf (by simp)
    | some st1 =>
      rw [hst1] at hf
      have h1 := h.runCase hst1
      have := LoopInv.foldlM rest h1 hf
      simpa [List.append_assoc] using this

theorem LoopInv.init (t : Nat) :
    LoopInv [] ⟨[⟨0, .CompilationSuccess, t, 0⟩], 0, .Accepted⟩ :=
  ⟨rfl, rfl, rfl, rfl⟩

/-- Characterisation of every successful-compile judging run: the overall
result is the first decisive verdict, the results vector has one entry per
executed case plus the pseudo-case with positional ids, and the score sums
the accepted cases' configured scores. -/
theorem judge_some_spec {p : Problem} {env : JudgeEnv} {r : JudgeResult}
    (hc : env.compileStatus = some true) (hj : judge p env = some r) :
    r.result = firstDecisive (r.cases.drop 1) ∧
    r.cases.length = (p.cases.zip env.cases).length + 1 ∧
    r.cases.map (·.id) = List.range ((p.cases.zip env.cases).length + 1) ∧
    r.score
      = accScore (((p.cases.zip env.cases).map Prod.fst).zip (r.cases.drop 1))
    := by
  unfold judge at hj
  rw [hc] at hj
  simp only [bind, Option.bind] at hj
  cases hf : (p.cases.zip env.cases).foldlM (runCase p.typ)
      ⟨[⟨0, .CompilationSuccess, env.compileElapsed % 2 ^ 32, 0⟩], 0,
        .Accepted⟩ with
  | none => rw [hf] at hj; exact absurd hj (by simp)
  | some fin =>
    rw [hf] at hj
    simp only [Option.some.injEq] at hj
    have hinv := (LoopInv.init (env.compileElapsed % 2 ^ 32)).foldlM
      (p.cases.zip env.cases) hf
    rw [List.nil_append] at hinv
    obtain ⟨hl, hi, hs, ho⟩ := hinv
    rw [List.length_map] at hl hi
    subst hj
    exact ⟨ho, hl, hi, hs⟩

/-- The fixture problems used by the concrete checks below. -/
def stdProblem : Problem := ⟨1, "aplusb", .Standard, [⟨50, 0⟩]⟩

def strictProblem : Problem := ⟨2, "echo", .Strict, [⟨50, 0⟩]⟩

/-- A per-case I/O environment in which everything succeeds and the child
process exits successfully after 5 µs, printing `1` against answer `1`. -/
def okCaseEnv : CaseEnv :=
  { inputOpenOk := true
    outputCreateOk := true
    spawnOk := true
    wait := .exited true
    killElapsed := 0
    runElapsed := 5
    outputOpenOk := true
    answerOpenOk := true
    outputRead := some ['1']
    answerRead := some ['1'] }

/-- **C1**, counterexample.  One Standard test case whose input file fails
to open: the per-case verdict recorded is `SystemError`, yet the overall
result stays `Accepted`, because `system_error` pushes the case record
without updating `result_type`.  The claim says the overall result would be
the first non-Accepted case verdict (`SystemError` here). -/
theorem judge_systemError_not_overall :
    judge stdProblem
      ⟨some true, 7, [{ okCaseEnv with inputOpenOk := false }]⟩
    = some ⟨.Accepted, 0,
        [⟨0, .CompilationSuccess, 7, 0⟩, ⟨1, .SystemError, 0, 0⟩]⟩ := by
  decide

/-- **C1**, amended: for every judging run whose compile step succeeded,
the overall result equals the first per-case verdict (cases `i ≥ 1`, index
order) that is neither `Accepted` nor `SystemError`, or `Accepted` if there
is none; per-case `SystemError` verdicts never update the overall result. -/
theorem judge_overall_is_first_decisive (p : Problem) (env : JudgeEnv)
    (r : JudgeResult) (hc : env.compileStatus = some true)
    (hj : judge p env = some r) :
    r.result = firstDecisive (r.cases.drop 1) :=
  (judge_some_spec hc hj).1

theorem judge_overall_is_first_decisive_witness :
    judge stdProblem
        ⟨some true, 7, [{ okCaseEnv with answerRead := some ['2'] }]⟩
      = some ⟨.WrongAnswer, 0,
          [⟨0, .CompilationSuccess, 7, 0⟩, ⟨1, .WrongAnswer, 5, 0⟩]⟩ ∧
    (⟨.WrongAnswer, 0,
        [⟨0, .CompilationSuccess, 7, 0⟩, ⟨1, .WrongAnswer, 5, 0⟩]⟩
      : JudgeResult).result
    = firstDecisive ((⟨.WrongAnswer, 0,
        [⟨0, .CompilationSuccess, 7, 0⟩, ⟨1, .WrongAnswer, 5, 0⟩]⟩
      : JudgeResult).cases.drop 1) :=
  ⟨by decide,
    judge_overall_is_first_decisive stdProblem
      ⟨some true, 7, [{ okCaseEnv with answerRead := some ['2'] }]⟩
      ⟨.WrongAnswer, 0,
        [⟨0, .CompilationSuccess, 7, 0⟩, ⟨1, .WrongAnswer, 5, 0⟩]⟩
      rfl (by decide)⟩

/-- **C6**: when the compile command fails to spawn or exits unsuccessfully,
the result short-circuits: case 0 is `CompilationError` carrying the
elapsed compile time, every later case stays `Waiting`, the overall result
is `CompilationError`, the score is `0`, and no test case is executed (the
result does not depend on the per-case environments at all). -/
theorem judge_compile_error_short_circuit (p : Problem) (env : JudgeEnv)
    (hc : env.compileStatus = none ∨ env.compileStatus = some false) :
    judge p env
      = some ⟨.CompilationError, 0, compileErrorCases p env.compileElapsed⟩ ∧
    (compileErrorCases p env.compileElapsed).length = p.cases.length + 1 ∧
    (compileErrorCases p env.compileElapsed).head?
      = some ⟨0, .CompilationError, env.compileElapsed % 2 ^ 32, 0⟩ ∧
    (∀ i, i < p.cases.length →
      (compileErrorCases p env.compileElapsed).getD (i + 1) ⟨0, .Waiting, 0, 0⟩
        = ⟨i + 1, .Waiting, 0, 0⟩) ∧
    (∀ cs : List CaseEnv, judge p { env with cases := cs } = judge p env) := by
  refine ⟨?_, by simp [compileErrorCases], rfl, ?_, ?_⟩
  · unfold judge
    rcases hc with hc | hc <;> rw [hc]
  · intro i hi
    simp [compileErrorCases, List.getD, hi]
  · intro cs
    unfold judge
    rcases hc with hc | hc <;> rw [show ({ env with cases := cs }
      : JudgeEnv).compileStatus = env.compileStatus from rfl, hc]

theorem judge_compile_error_short_circuit_witness :
    ((⟨some false, 9, [okCaseEnv]⟩ : JudgeEnv).compileStatus = none ∨
      (⟨some false, 9, [okCaseEnv]⟩ : JudgeEnv).compileStatus = some false) ∧
    judge stdProblem ⟨some false, 9, [okCaseEnv]⟩
      = some ⟨.CompilationError, 0,
          compileErrorCases stdProblem 9⟩ ∧
    (∀ i, i < stdProblem.cases.length →
      (compileErrorCases stdProblem 9).getD (i + 1) ⟨0, .Waiting, 0, 0⟩
        = ⟨i + 1, .Waiting, 0, 0⟩) :=
  ⟨Or.inr rfl,
    (judge_compile_error_short_circuit stdProblem
      ⟨some false, 9, [okCaseEnv]⟩ (Or.inr rfl)).1,
    (judge_compile_error_short_circuit stdProblem
      ⟨some false, 9, [okCaseEnv]⟩ (Or.inr rfl)).2.2.2.1⟩

/-- The per-case verdicts of a compile-error result are all `Waiting`. -/
theorem compileErrorCases_drop_one_waiting (p : Problem) (t : Nat) :
    ∀ cr ∈ (compileErrorCases p t).drop 1, cr.result = .Waiting := by
  intro cr hcr
  simp only [compileErrorCases, List.drop_succ_cons, List.drop_zero,
    List.mem_map] at hcr
  obtain ⟨i, _, hi⟩ := hcr
  rw [← hi]

/-- **C7**: every judge result has exactly `1 + |problem.cases|` case
records with ids `0, 1, …, N` in order and a score summing the configured
scores of exactly the accepted cases; and every job created by the
dispatcher has the same shape with every case `Waiting` and score `0`. -/
theorem judge_and_newJob_case_vector (p : Problem) (env : JudgeEnv)
    (r : JudgeResult) (cfg : Config) (denv : DispatchEnv) (sub : Submission)
    (j : Job) (effs : List Effect)
    (hlen : env.cases.length = p.cases.length)
    (hj : judge p env = some r)
    (hp : cfg.getProblem sub.problemId = some p)
    (hn : newJob cfg denv sub = (.ok j, effs)) :
    (r.cases.length = p.cases.length + 1 ∧
     r.cases.map (·.id) = List.range (p.cases.length + 1) ∧
     r.score = accScore (p.cases.zip (r.cases.drop 1))) ∧
    (j.cases.length = p.cases.length + 1 ∧
     j.cases.map (·.id) = List.range (p.cases.length + 1) ∧
     (∀ cr ∈ j.cases, cr.result = .Waiting) ∧
     j.score = 0 ∧
     j.score = accScore (p.cases.zip (j.cases.drop 1))) := by
  have hzlen : (p.cases.zip env.cases).length = p.cases.length := by
    rw [List.length_zip, hlen, Nat.min_self]
  constructor
  · cases hcs : env.compileStatus with
    | none =>
      unfold judge at hj
      rw [hcs] at hj
      simp only [Option.some.injEq] at hj
      subst hj
      refine ⟨by simp [compileErrorCases], ?_, ?_⟩
      · show (compileErrorCases p env.compileElapsed).map (·.id) = _
        simp only [compileErrorCases, List.map_cons, List.map_map]
        rw [List.range_succ_eq_map]
        simp [Function.comp]
      · show (0 : Rat) = _
        refine (accScore_eq_zero ?_).symm
        intro x hx
        have h2 := (List.of_mem_zip hx).2
        rw [compileErrorCases_drop_one_waiting p env.compileElapsed _ h2]
        simp
    | some ok =>
      cases ok with
      | false =>
        unfold judge at hj
        rw [hcs] at hj
        simp only [Option.some.injEq] at hj
        subst hj
        refine ⟨by simp [compileErrorCases], ?_, ?_⟩
        · show (compileErrorCases p env.compileElapsed).map (·.id) = _
          simp only [compileErrorCases, List.map_cons, List.map_map]
          rw [List.range_succ_eq_map]
          simp [Function.comp]
        · show (0 : Rat) = _
          refine (accScore_eq_zero ?_).symm
          intro x hx
          have h2 := (List.of_mem_zip hx).2
          rw [compileErrorCases_drop_one_waiting p env.compileElapsed _ h2]
          simp
      | true =>
        obtain ⟨_, hl, hi, hs⟩ := judge_some_spec hcs hj
        rw [hzlen] at hl hi
        rw [List.map_fst_zip _ _ (by rw [hlen])] at hs
        exact ⟨hl, hi, hs⟩
  · unfold newJob at hn
    cases hlang : cfg.getLang sub.language with
    | none => rw [hlang] at hn; exact absurd hn (by simp)
    | some lang =>
      rw [hlang] at hn
      rw [hp] at hn
      simp only at hn
      cases hu : denv.userExists with
      | false => rw [hu] at hn; exact absurd hn (by simp)
      | true =>
        rw [hu] at hn
        simp only [Bool.not_true] at hn
        rw [if_neg (by simp)] at hn
        cases hcc : contestChecks denv sub p.id with
        | error e => rw [hcc] at hn; exact absurd hn (by simp)
        | ok u =>
          rw [hcc] at hn
          simp only at hn
          cases hpub : denv.publishOk with
          | false =>
            rw [hpub] at hn
            rw [if_neg (by simp)] at hn
            exact absurd hn (by simp)
          | true =>
            rw [hpub] at hn
            rw [if_pos rfl] at hn
            simp only [Prod.mk.injEq, Except.ok.injEq] at hn
            obtain ⟨hjob, _⟩ := hn
            subst hjob
            refine ⟨by simp [newJobCases], ?_, ?_, rfl, ?_⟩
            · show (newJobCases p.cases.length).map (·.id) = _
              simp only [newJobCases, List.map_map]
              have hcomp : ((fun x : CaseResult => x.id)
                    ∘ fun id => (⟨id, .Waiting, 0, 0⟩ : CaseResult))
                  = fun id => id := rfl
              rw [hcomp, List.map_id']
            · intro cr hcr
              simp only [newJobCases, List.mem_map] at hcr
              obtain ⟨i, _, hi⟩ := hcr
              rw [← hi]
            · show (0 : Rat) = _
              refine (accScore_eq_zero ?_).symm
              intro x hx
              have h2 := (List.of_mem_zip hx).2
              show x.2.result ≠ JobResult.Accepted
              have : ∀ cr ∈ (newJobCases p.cases.length).drop 1,
                  cr.result = JobResult.Waiting := by
                intro cr hcr
                have := List.mem_of_mem_drop hcr
                simp only [newJobCases, List.mem_map] at this
                obtain ⟨i, _, hi⟩ := this
                rw [← hi]
              rw [this x.2 h2]
              simp

/-- Further concrete fixtures for the dispatcher. -/
def fixtureLang : Language :=
  ⟨"Rust", "main.rs", ["rustc", "%INPUT%", "-o", "%OUTPUT%"]⟩

def fixtureConfig : Config := ⟨[stdProblem, strictProblem], [fixtureLang]⟩

def fixtureSub : Submission := ⟨"fn main() \x7b\x7d", "Rust", 0, 0, 1⟩

def fixtureDispatchEnv : DispatchEnv :=
  { userExists := true
    contest := none
    now := 0
    submissionCount := 0
    created := 100
    jobsCount := 0
    publishOk := true }

def fixtureJob : Job :=
  ⟨0, 100, 100, fixtureSub, .Queueing, .Waiting, 0,
    [⟨0, .Waiting, 0, 0⟩, ⟨1, .Waiting, 0, 0⟩]⟩

def waResult : JudgeResult :=
  ⟨.WrongAnswer, 0, [⟨0, .CompilationSuccess, 7, 0⟩, ⟨1, .WrongAnswer, 5, 0⟩]⟩

theorem judge_and_newJob_case_vector_witness :
    [{ okCaseEnv with answerRead := some ['2'] }].length
        = stdProblem.cases.length ∧
    judge stdProblem ⟨some true, 7, [{ okCaseEnv with answerRead := some ['2'] }]⟩
        = some waResult ∧
    fixtureConfig.getProblem fixtureSub.problemId = some stdProblem ∧
    newJob fixtureConfig fixtureDispatchEnv fixtureSub
        = (.ok fixtureJob, [.persistJob fixtureJob, .publish 0]) ∧
    ((waResult.cases.length = stdProblem.cases.length + 1 ∧
      waResult.cases.map (·.id) = List.range (stdProblem.cases.length + 1) ∧
      waResult.score = accScore (stdProblem.cases.zip (waResult.cases.drop 1))) ∧
     (fixtureJob.cases.length = stdProblem.cases.length + 1 ∧
      fixtureJob.cases.map (·.id) = List.range (stdProblem.cases.length + 1) ∧
      (∀ cr ∈ fixtureJob.cases, cr.result = .Waiting) ∧
      fixtureJob.score = 0 ∧
      fixtureJob.score
        = accScore (stdProblem.cases.zip (fixtureJob.cases.drop 1)))) :=
  ⟨by decide, by decide, by decide, by decide,
    judge_and_newJob_case_vector stdProblem
      ⟨some true, 7, [{ okCaseEnv with answerRead := some ['2'] }]⟩
      waResult fixtureConfig fixtureDispatchEnv fixtureSub fixtureJob
      [.persistJob fixtureJob, .publish 0]
      (by decide) (by decide) (by decide) (by decide)⟩

/-- **C3**: with a Standard (resp. Strict) problem, when the answer-file
read fails after a successful run and a successful output read, `judge`
panics (aborts) instead of recording the per-case `SystemError` the claim
and the spec describe: the guard before `answer.unwrap()` at lines 276/311
of `src/judge.rs` re-tests `output.is_err()` instead of `answer.is_err()`.
An output-read failure, by contrast, is recorded as the per-case
`SystemError` without aborting, as the claim states. -/
theorem judge_answer_read_failure_panics :
    judge stdProblem
        ⟨some true, 7, [{ okCaseEnv with answerRead := none }]⟩ = none ∧
    judge strictProblem
        ⟨some true, 7, [{ okCaseEnv with answerRead := none }]⟩ = none ∧
    judge stdProblem
        ⟨some true, 7, [{ okCaseEnv with outputRead := none }]⟩
      = some ⟨.Accepted, 0,
          [⟨0, .CompilationSuccess, 7, 0⟩, ⟨1, .SystemError, 0, 0⟩]⟩ :=
  ⟨by decide, by decide, by decide⟩

/-- **C4**, counterexample: judging an `Spj` (resp. `DynamicRanking`)
problem whose single test case runs cleanly panics at the
`unimplemented!()` arm, so the run aborts and no verdict — in particular no
`SystemError` verdict — is returned for the case. -/
theorem judge_spj_dynamicRanking_panics :
    judge ⟨3, "spj", .Spj, [⟨50, 0⟩]⟩ ⟨some true, 7, [okCaseEnv]⟩ = none ∧
    judge ⟨4, "dyn", .DynamicRanking, [⟨50, 0⟩]⟩ ⟨some true, 7, [okCaseEnv]⟩
      = none :=
  ⟨by decide, by decide⟩

/-- **C4**, amended: for an `Spj` or `DynamicRanking` problem, any test
case that reaches the output-comparison step (all I/O up to opening the
answer file succeeded, the child exited successfully, and the time limit
was not exceeded) makes the judging loop panic; no `SystemError` verdict is
produced for such a case. -/
theorem runCase_spj_dynamicRanking_panics (typ : ProblemType)
    (st : JudgeState) (c : Case) (e : CaseEnv)
    (ht : typ = .Spj ∨ typ = .DynamicRanking)
    (h1 : e.inputOpenOk = true) (h2 : e.outputCreateOk = true)
    (h3 : e.spawnOk = true) (hw : e.wait = .exited true)
    (h4 : ¬(c.timeLimit ≠ 0 ∧ e.runElapsed % 2 ^ 32 > c.timeLimit))
    (h5 : e.outputOpenOk = true) (h6 : e.answerOpenOk = true) :
    runCase typ st (c, e) = none := by
  rcases ht with ht | ht <;> subst ht <;>
    · unfold runCase
      simp only [h1, h2, h3, hw, h5, h6, Bool.not_true, if_neg h4]
      simp

theorem runCase_spj_dynamicRanking_panics_witness :
    runCase .Spj ⟨[⟨0, .CompilationSuccess, 7, 0⟩], 0, .Accepted⟩
        (⟨50, 0⟩, okCaseEnv) = none ∧
    runCase .DynamicRanking ⟨[⟨0, .CompilationSuccess, 7, 0⟩], 0, .Accepted⟩
        (⟨50, 0⟩, okCaseEnv) = none :=
  ⟨runCase_spj_dynamicRanking_panics .Spj
      ⟨[⟨0, .CompilationSuccess, 7, 0⟩], 0, .Accepted⟩ ⟨50, 0⟩ okCaseEnv
      (Or.inl rfl) rfl rfl rfl rfl (by decide) rfl rfl,
    runCase_spj_dynamicRanking_panics .DynamicRanking
      ⟨[⟨0, .CompilationSuccess, 7, 0⟩], 0, .Accepted⟩ ⟨50, 0⟩ okCaseEnv
      (Or.inr rfl) rfl rfl rfl rfl (by decide) rfl rfl⟩

/-- **C5**: for a test case that reaches output comparison with both reads
succeeding, a Standard problem accepts exactly when output and answer agree
after the `trim` normalisation (trim trailing whitespace of the whole
buffer, then of every `'\n'`-separated line, concatenated without
separators), a Strict problem exactly when the raw contents are equal, and
disagreement yields `WrongAnswer`. -/
theorem runCase_standard_strict_comparison (st : JudgeState) (c : Case)
    (e : CaseEnv) (o a : List Char)
    (h1 : e.inputOpenOk = true) (h2 : e.outputCreateOk = true)
    (h3 : e.spawnOk = true) (hw : e.wait = .exited true)
    (h4 : ¬(c.timeLimit ≠ 0 ∧ e.runElapsed % 2 ^ 32 > c.timeLimit))
    (h5 : e.outputOpenOk = true) (h6 : e.answerOpenOk = true)
    (ho : e.outputRead = some o) (ha : e.answerRead = some a) :
    runCase .Standard st (c, e)
      = some (updateResult
          (if trim o = trim a then { st with score := st.score + c.score }
           else st)
          st.results.length
          (if trim o = trim a then .Accepted else .WrongAnswer)
          (e.runElapsed % 2 ^ 32)) ∧
    runCase .Strict st (c, e)
      = some (updateResult
          (if o = a then { st with score := st.score + c.score } else st)
          st.results.length
          (if o = a then .Accepted else .WrongAnswer)
          (e.runElapsed % 2 ^ 32)) ∧
    (∀ st', runCase .Standard st (c, e) = some st' →
      ((st'.results.getLastD ⟨0, .Waiting, 0, 0⟩).result = .Accepted
        ↔ trim o = trim a)) ∧
    (∀ st', runCase .Strict st (c, e) = some st' →
      ((st'.results.getLastD ⟨0, .Waiting, 0, 0⟩).result = .Accepted
        ↔ o = a)) := by
  have hstd : runCase .Standard st (c, e)
      = some (updateResult
          (if trim o = trim a then { st with score := st.score + c.score }
           else st)
          st.results.length
          (if trim o = trim a then .Accepted else .WrongAnswer)
          (e.runElapsed % 2 ^ 32)) := by
    unfold runCase
    simp only [h1, h2, h3, hw, h5, h6, ho, ha, Bool.not_true, if_neg h4,
      Option.map_some]
    by_cases htr : trim o = trim a <;> simp [htr]
  have hstr : runCase .Strict st (c, e)
      = some (updateResult
          (if o = a then { st with score := st.score + c.score } else st)
          st.results.length
          (if o = a then .Accepted else .WrongAnswer)
          (e.runElapsed % 2 ^ 32)) := by
    unfold runCase
    simp only [h1, h2, h3, hw, h5, h6, ho, ha, Bool.not_true, if_neg h4]
    by_cases htr : o = a <;> simp [htr]
  have hupd : ∀ (s : JudgeState) (id : Nat) (r : JobResult) (t : Nat),
      (updateResult s id r t).results = s.results ++ [⟨id, r, t, 0⟩] :=
    fun _ _ _ _ => rfl
  refine ⟨hstd, hstr, ?_, ?_⟩
  · intro st' hst'
    rw [hstd] at hst'
    simp only [Option.some.injEq] at hst'
    subst hst'
    rw [hupd, List.getLastD_concat]
    by_cases htr : trim o = trim a <;> simp [htr]
  · intro st' hst'
    rw [hstr] at hst'
    simp only [Option.some.injEq] at hst'
    subst hst'
    rw [hupd, List.getLastD_concat]
    by_cases htr : o = a <;> simp [htr]

theorem runCase_standard_strict_comparison_witness :
    runCase .Standard ⟨[⟨0, .CompilationSuccess, 7, 0⟩], 0, .Accepted⟩
        (⟨50, 0⟩, { okCaseEnv with outputRead := some ['1', ' '] })
      = some (updateResult
          (if trim ['1', ' '] = trim ['1'] then
            { results := [⟨0, .CompilationSuccess, 7, 0⟩],
              score := (0 : Rat) + 50, resultType := .Accepted }
           else ⟨[⟨0, .CompilationSuccess, 7, 0⟩], 0, .Accepted⟩)
          1
          (if trim ['1', ' '] = trim ['1'] then .Accepted else .WrongAnswer)
          (5 % 2 ^ 32)) ∧
    runCase .Strict ⟨[⟨0, .CompilationSuccess, 7, 0⟩], 0, .Accepted⟩
        (⟨50, 0⟩, { okCaseEnv with outputRead := some ['1', ' '] })
      = some (updateResult
          (if (['1', ' '] : List Char) = ['1'] then
            { results := [⟨0, .CompilationSuccess, 7, 0⟩],
              score := (0 : Rat) + 50, resultType := .Accepted }
           else ⟨[⟨0, .CompilationSuccess, 7, 0⟩], 0, .Accepted⟩)
          1
          (if (['1', ' '] : List Char) = ['1'] then .Accepted
           else .WrongAnswer)
          (5 % 2 ^ 32)) :=
  ⟨(runCase_standard_strict_comparison
      ⟨[⟨0, .CompilationSuccess, 7, 0⟩], 0, .Accepted⟩ ⟨50, 0⟩
      { okCaseEnv with outputRead := some ['1', ' '] } ['1', ' '] ['1']
      rfl rfl rfl rfl (by decide) rfl rfl rfl rfl).1,
    (runCase_standard_strict_comparison
      ⟨[⟨0, .CompilationSuccess, 7, 0⟩], 0, .Accepted⟩ ⟨50, 0⟩
      { okCaseEnv with outputRead := some ['1', ' '] } ['1', ' '] ['1']
      rfl rfl rfl rfl (by decide) rfl rfl rfl rfl).2.1⟩

/-- **C8**, counterexample: a child that exits unsuccessfully after an
elapsed run time of 12345 µs is recorded as `RuntimeError` with time `0`:
the source passes the literal `0` to `update_result` at line 192 instead of
the elapsed time, refuting `time = elapsed`. -/
theorem runtime_error_records_time_zero :
    judge stdProblem
      ⟨some true, 7,
        [{ okCaseEnv with wait := .exited false, runElapsed := 12345 }]⟩
    = some ⟨.RuntimeError, 0,
        [⟨0, .CompilationSuccess, 7, 0⟩, ⟨1, .RuntimeError, 0, 0⟩]⟩ ∧
    (0 : Nat) ≠ 12345 % 2 ^ 32 :=
  ⟨by decide, by decide⟩

/-- **C8**, amended: a child process exiting with a non-success status
makes the loop record `RuntimeError` for the case — updating the overall
result through `update_result` — with a recorded time of `0` (not the
elapsed run time). -/
theorem runCase_runtime_error (typ : ProblemType) (st : JudgeState)
    (c : Case) (e : CaseEnv)
    (h1 : e.inputOpenOk = true) (h2 : e.outputCreateOk = true)
    (h3 : e.spawnOk = true) (hw : e.wait = .exited false) :
    runCase typ st (c, e)
      = some (updateResult st st.results.length .RuntimeError 0) ∧
    (updateResult st st.results.length .RuntimeError 0).results
      = st.results ++ [⟨st.results.length, .RuntimeError, 0, 0⟩] := by
  refine ⟨?_, rfl⟩
  unfold runCase
  simp [h1, h2, h3, hw]

theorem runCase_runtime_error_witness :
    runCase .Standard ⟨[⟨0, .CompilationSuccess, 7, 0⟩], 0, .Accepted⟩
        (⟨50, 0⟩, { okCaseEnv with wait := .exited false })
      = some (updateResult ⟨[⟨0, .CompilationSuccess, 7, 0⟩], 0, .Accepted⟩
          1 .RuntimeError 0) :=
  (runCase_runtime_error .Standard
    ⟨[⟨0, .CompilationSuccess, 7, 0⟩], 0, .Accepted⟩ ⟨50, 0⟩
    { okCaseEnv with wait := .exited false } rfl rfl rfl rfl).1

/-- Failing the contest-validity block fails `new_job` with that error and
no effects. -/
theorem newJob_error_of_contestChecks {cfg : Config} {env : DispatchEnv}
    {sub : Submission} {l : Language} {p : Problem} {e : Error}
    (hl : cfg.getLang sub.language = some l)
    (hp : cfg.getProblem sub.problemId = some p)
    (hu : env.userExists = true)
    (hcc : contestChecks env sub p.id = .error e) :
    newJob cfg env sub = (.error e, []) := by
  unfold newJob
  rw [hl, hp]
  simp only [hu, Bool.not_true, Bool.false_eq_true, if_false, hcc]

/-- **C9**: `new_job` validates in the spec's order — unknown language,
problem, user or contest give `NotFound`; a user or problem outside the
contest, or a clock outside `[contest.from, contest.to]`, give
`InvalidArgument` (with distinct messages for not-yet-begun versus ended);
a submission count at the contest's limit gives `RateLimit` — and on every
such failure no job row is persisted and nothing is published (the effect
list is empty). -/
theorem newJob_validation_order (cfg : Config) (env : DispatchEnv)
    (sub : Submission) :
    (cfg.getLang sub.language = none →
      newJob cfg env sub
        = (.error ⟨.NotFound, .noSuchLanguage sub.language⟩, [])) ∧
    (∀ l, cfg.getLang sub.language = some l →
      cfg.getProblem sub.problemId = none →
      newJob cfg env sub
        = (.error ⟨.NotFound, .noSuchProblem sub.problemId⟩, [])) ∧
    (∀ l p, cfg.getLang sub.language = some l →
      cfg.getProblem sub.problemId = some p →
      env.userExists = false →
      newJob cfg env sub
        = (.error ⟨.NotFound, .noSuchUser sub.userId⟩, [])) ∧
    (∀ l p, cfg.getLang sub.language = some l →
      cfg.getProblem sub.problemId = some p →
      env.userExists = true → sub.contestId ≠ 0 → env.contest = none →
      newJob cfg env sub
        = (.error ⟨.NotFound, .noSuchContest sub.contestId⟩, [])) ∧
    (∀ l p c, cfg.getLang sub.language = some l →
      cfg.getProblem sub.problemId = some p →
      env.userExists = true → sub.contestId ≠ 0 → env.contest = some c →
      c.userIds.contains sub.userId = false →
      newJob cfg env sub
        = (.error ⟨.InvalidArgument,
            .userNotInContest sub.userId sub.contestId⟩, [])) ∧
    (∀ l p c, cfg.getLang sub.language = some l →
      cfg.getProblem sub.problemId = some p →
      env.userExists = true → sub.contestId ≠ 0 → env.contest = some c →
      c.userIds.contains sub.userId = true →
      c.problemIds.contains p.id = false →
      newJob cfg env sub
        = (.error ⟨.InvalidArgument,
            .problemNotInContest p.id sub.contestId⟩, [])) ∧
    (∀ l p c, cfg.getLang sub.language = some l →
      cfg.getProblem sub.problemId = some p →
      env.userExists = true → sub.contestId ≠ 0 → env.contest = some c →
      c.userIds.contains sub.userId = true →
      c.problemIds.contains p.id = true →
      env.now < c.fromTime →
      newJob cfg env sub
        = (.error ⟨.InvalidArgument, .contestNotBegun sub.contestId⟩, [])) ∧
    (∀ l p c, cfg.getLang sub.language = some l →
      cfg.getProblem sub.problemId = some p →
      env.userExists = true → sub.contestId ≠ 0 → env.contest = some c →
      c.userIds.contains sub.userId = true →
      c.problemIds.contains p.id = true →
      ¬env.now < c.fromTime → env.now > c.toTime →
      newJob cfg env sub
        = (.error ⟨.InvalidArgument, .contestEnded sub.contestId⟩, [])) ∧
    (∀ l p c, cfg.getLang sub.language = some l →
      cfg.getProblem sub.problemId = some p →
      env.userExists = true → sub.contestId ≠ 0 → env.contest = some c →
      c.userIds.contains sub.userId = true →
      c.problemIds.contains p.id = true →
      ¬env.now < c.fromTime → ¬env.now > c.toTime →
      env.submissionCount ≥ c.submissionLimit →
      newJob cfg env sub
        = (.error ⟨.RateLimit, .submissionLimitExceeded⟩, [])) ∧
    (∀ cid : Nat, ErrMsg.contestNotBegun cid ≠ ErrMsg.contestEnded cid) := by
  refine ⟨?_, ?_, ?_, ?_, ?_, ?_, ?_, ?_, ?_, fun _ => by simp⟩
  · intro hl
    unfold newJob
    rw [hl]
  · intro l hl hp
    unfold newJob
    rw [hl, hp]
  · intro l p hl hp hu
    unfold newJob
    rw [hl, hp]
    simp only [hu, Bool.not_false, if_true]
  · intro l p hl hp hu hcid hc
    refine newJob_error_of_contestChecks hl hp hu ?_
    unfold contestChecks
    rw [if_neg hcid, hc]
  · intro l p c hl hp hu hcid hc hin
    refine newJob_error_of_contestChecks hl hp hu ?_
    unfold contestChecks
    rw [if_neg hcid, hc]
    simp only [hin, Bool.not_false, if_true]
  · intro l p c hl hp hu hcid hc hin hpin
    refine newJob_error_of_contestChecks hl hp hu ?_
    unfold contestChecks
    rw [if_neg hcid, hc]
    simp only [hin, hpin, Bool.not_true, Bool.not_false,
      Bool.false_eq_true, if_false, if_true]
  · intro l p c hl hp hu hcid hc hin hpin hfrom
    refine newJob_error_of_contestChecks hl hp hu ?_
    unfold contestChecks
    rw [if_neg hcid, hc]
    simp only [hin, hpin, Bool.not_true, Bool.false_eq_true, if_false,
      if_pos hfrom]
  · intro l p c hl hp hu hcid hc hin hpin hfrom hto
    refine newJob_error_of_contestChecks hl hp hu ?_
    unfold contestChecks
    rw [if_neg hcid, hc]
    simp only [hin, hpin, Bool.not_true, Bool.false_eq_true, if_false,
      if_neg hfrom, if_pos hto]
  · intro l p c hl hp hu hcid hc hin hpin hfrom hto hlim
    refine newJob_error_of_contestChecks hl hp hu ?_
    unfold contestChecks
    rw [if_neg hcid, hc]
    simp only [hin, hpin, Bool.not_true, Bool.false_eq_true, if_false,
      if_neg hfrom, if_neg hto, if_pos hlim]

/-- A fixture contest running from time 10 to 20 with user 0, problem 1 and
a submission limit of 2. -/
def fixtureContest : Contest := ⟨some 1, "warmup", 10, 20, [1], [0], 2⟩

def fixtureSubContest : Submission := ⟨"fn main() \x7b\x7d", "Rust", 0, 1, 1⟩

theorem newJob_validation_order_witness :
    (fixtureConfig.getLang "Python" = none ∧
      newJob fixtureConfig fixtureDispatchEnv
          { fixtureSub with language := "Python" }
        = (.error ⟨.NotFound, .noSuchLanguage "Python"⟩, [])) ∧
    (newJob fixtureConfig
        { fixtureDispatchEnv with contest := some fixtureContest, now := 5 }
        fixtureSubContest
      = (.error ⟨.InvalidArgument, .contestNotBegun 1⟩, [])) ∧
    (newJob fixtureConfig
        { fixtureDispatchEnv with
            contest := some fixtureContest, now := 15, submissionCount := 2 }
        fixtureSubContest
      = (.error ⟨.RateLimit, .submissionLimitExceeded⟩, [])) ∧
    ErrMsg.contestNotBegun 1 ≠ ErrMsg.contestEnded 1 := by
  refine ⟨⟨by decide, ?_⟩, ?_, ?_, ?_⟩
  · exact (newJob_validation_order fixtureConfig fixtureDispatchEnv
      { fixtureSub with language := "Python" }).1 (by decide)
  · exact (newJob_validation_order fixtureConfig
      { fixtureDispatchEnv with contest := some fixtureContest, now := 5 }
      fixtureSubContest).2.2.2.2.2.2.1 fixtureLang stdProblem fixtureContest
      (by decide) (by decide) (by decide) (by decide) (by decide) (by decide)
      (by decide) (by decide)
  · exact (newJob_validation_order fixtureConfig
      { fixtureDispatchEnv with
          contest := some fixtureContest, now := 15, submissionCount := 2 }
      fixtureSubContest).2.2.2.2.2.2.2.2.1 fixtureLang stdProblem
      fixtureContest (by decide) (by decide) (by decide) (by decide)
      (by decide) (by decide) (by decide) (by decide) (by decide) (by decide)
  · exact (newJob_validation_order fixtureConfig fixtureDispatchEnv
      fixtureSub).2.2.2.2.2.2.2.2.2 1

/-- An arbitrary job row, used as the `getD` default below. -/
def defaultJob : Job := ⟨0, 0, 0, ⟨"", "", 0, 0, 0⟩, .Queueing, .Waiting, 0, []⟩

/-- **C10**: cancelling a job that is not `Queueing` fails with
`InvalidState` and issues no store update; cancelling a `Queueing` job
persists the job with `state = Canceled` and every other field unchanged —
id, created_time, updated_time (not bumped), submission, result, score and
cases — while rows with a different id are left untouched. -/
theorem cancelJob_frame (db : List Job) (id : Nat) (j : Job)
    (hget : getJob db id = some j) :
    (j.state ≠ .Queueing →
      cancelJob db id = .error ⟨.InvalidState, .jobNotQueueing id⟩) ∧
    (j.state = .Queueing →
      cancelJob db id = .ok (updateJob db { j with state := .Canceled }) ∧
      ({ j with state := .Canceled }).id = j.id ∧
      ({ j with state := .Canceled }).createdTime = j.createdTime ∧
      ({ j with state := .Canceled }).updatedTime = j.updatedTime ∧
      ({ j with state := .Canceled }).submission = j.submission ∧
      ({ j with state := .Canceled }).result = j.result ∧
      ({ j with state := .Canceled }).score = j.score ∧
      ({ j with state := .Canceled }).cases = j.cases ∧
      ({ j with state := .Canceled }).state = .Canceled ∧
      (updateJob db { j with state := .Canceled }).length = db.length ∧
      (∀ i, i < db.length → (db.getD i defaultJob).id ≠ j.id →
        (updateJob db { j with state := .Canceled }).getD i defaultJob
          = db.getD i defaultJob)) := by
  constructor
  · intro hs
    unfold cancelJob
    rw [hget]
    show (if j.state ≠ JobStatus.Queueing then
        Except.error (Error.mk .InvalidState (.jobNotQueueing id))
      else Except.ok (updateJob db { j with state := .Canceled }))
      = Except.error (Error.mk .InvalidState (.jobNotQueueing id))
    rw [if_pos hs]
  · intro hs
    refine ⟨?_, rfl, rfl, rfl, rfl, rfl, rfl, rfl, rfl,
      by simp [updateJob], ?_⟩
    · unfold cancelJob
      rw [hget]
      show (if j.state ≠ JobStatus.Queueing then
          Except.error (Error.mk .InvalidState (.jobNotQueueing id))
        else Except.ok (updateJob db { j with state := .Canceled }))
        = Except.ok (updateJob db { j with state := .Canceled })
      rw [if_neg (by simp [hs])]
    · intro i hi hne
      unfold updateJob
      rw [List.getD_eq_getElem?_getD, List.getD_eq_getElem?_getD,
        List.getElem?_map]
      cases hdb : db[i]? with
      | none => simp
      | some k =>
        have hk : db.getD i defaultJob = k := by
          simp [List.getD_eq_getElem?_getD, hdb]
        rw [hk] at hne
        have hbeq : (k.id == j.id) = false := by simpa using hne
        simp [hbeq]
        intro h
        exact absurd h hne

def finishedJob : Job := ⟨1, 0, 5, fixtureSub, .Finished, .Accepted, 0, []⟩

theorem cancelJob_frame_witness :
    (getJob [fixtureJob, finishedJob] 0 = some fixtureJob ∧
      fixtureJob.state = .Queueing ∧
      cancelJob [fixtureJob, finishedJob] 0
        = .ok (updateJob [fixtureJob, finishedJob]
            { fixtureJob with state := .Canceled }) ∧
      ({ fixtureJob with state := .Canceled }).updatedTime
        = fixtureJob.updatedTime) ∧
    (getJob [fixtureJob, finishedJob] 1 = some finishedJob ∧
      finishedJob.state ≠ .Queueing ∧
      cancelJob [fixtureJob, finishedJob] 1
        = .error ⟨.InvalidState, .jobNotQueueing 1⟩) := by
  refine ⟨⟨by decide, by decide, ?_, ?_⟩, ⟨by decide, by decide, ?_⟩⟩
  · exact ((cancelJob_frame [fixtureJob, finishedJob] 0 fixtureJob
      (by decide)).2 (by decide)).1
  · exact ((cancelJob_frame [fixtureJob, finishedJob] 0 fixtureJob
      (by decide)).2 (by decide)).2.2.1
  · exact (cancelJob_frame [fixtureJob, finishedJob] 1 finishedJob
      (by decide)).1 (by decide)

/-! ## Lawfulness of the ranklist comparators -/

/-- The inner key comparison of `TieBreaker::compare`, reached once the
totals are equal, re-expressed through `compareOn` for the lawfulness
proofs. -/
def tieKeyCompare : TieBreaker → Row → Row → Ordering
  | .Default => fun _ _ => .eq
  | .SubmissionTime => compareOn (fun r => timeKey r.2)
  | .SubmissionCount => compareOn (fun r => countKey r.2)
  | .UserId => compareOn (fun r => r.1)

instance : Batteries.TransCmp (fun _ _ : Row => Ordering.eq) where
  symm _ _ := rfl
  le_trans _ h := h

theorem tieBreaker_compare_eq_lex (tb : TieBreaker) :
    TieBreaker.compare tb
      = compareLex (flip (compareOn (fun r : Row => totalScore r.2)))
          (tieKeyCompare tb) := by
  funext a b
  have hba : Ord.compare (totalScore b.2) (totalScore a.2)
      = (Ord.compare (totalScore a.2) (totalScore b.2)).swap :=
    (@Batteries.OrientedCmp.symm Rat (fun x y : Rat => Ord.compare x y)
      inferInstance _ _).symm
  cases tb <;>
    · unfold TieBreaker.compare compareLex compareOn flip tieKeyCompare
      cases h : Ord.compare (totalScore a.2) (totalScore b.2) <;>
        simp [hba, h, Ordering.then, Ordering.swap, compareOn]

theorem transCmp_tieBreaker (tb : TieBreaker) :
    Batteries.TransCmp (TieBreaker.compare tb) := by
  rw [tieBreaker_compare_eq_lex tb]
  cases tb <;> · unfold tieKeyCompare; infer_instance

theorem sortCompare_eq_lex (tb : TieBreaker) :
    sortCompare tb
      = compareLex (TieBreaker.compare tb) (compareOn (fun r : Row => r.1))
    := by
  funext a b
  unfold sortCompare compareLex compareOn
  cases h : TieBreaker.compare tb a b <;> simp [h, Ordering.then]

theorem transCmp_sortCompare (tb : TieBreaker) :
    Batteries.TransCmp (sortCompare tb) := by
  rw [sortCompare_eq_lex tb]
  haveI := transCmp_tieBreaker tb
  infer_instance

/-- The sorted ranklist is pairwise ordered under the full sort comparator
(total score descending, then tie-breaker key, then user id ascending). -/
theorem sortRanklist_pairwise (tb : TieBreaker) (l : List Row) :
    (sortRanklist tb l).Pairwise (fun a b => sortCompare tb a b ≠ .gt) := by
  haveI := transCmp_sortCompare tb
  have hbne : ∀ o : Ordering, ((o != Ordering.gt) = true) ↔ o ≠ .gt := by
    intro o
    cases o <;> decide
  have hp := @List.sorted_mergeSort Row
    (fun a b => sortCompare tb a b != Ordering.gt)
    (fun a b c h1 h2 => by
      have h3 : sortCompare tb a c ≠ .gt :=
        Batteries.TransCmp.le_trans ((hbne _).mp h1) ((hbne _).mp h2)
      exact (hbne _).mpr h3)
    (fun a b => by
      simp only [Bool.or_eq_true, hbne]
      by_cases h : sortCompare tb a b = .gt
      · have h2 : sortCompare tb b a = .lt :=
          Batteries.OrientedCmp.cmp_eq_gt.mp h
        exact Or.inr (by simp [h2])
      · exact Or.inl h)
    l
  exact hp.imp fun h => (hbne _).mp h

/-! ## The rank column -/

theorem ranksAux_length (tb : TieBreaker) :
    ∀ (rs : List Row) (i lastRank : Nat) (prev : Row),
      (ranksAux tb i lastRank prev rs).length = rs.length
  | [], _, _, _ => rfl
  | _ :: rs, i, lastRank, prev => by
    unfold ranksAux
    simp [ranksAux_length tb rs]

theorem ranksAux_head (tb : TieBreaker) (rs : List Row) (i lastRank : Nat)
    (prev r : Row) :
    (ranksAux tb i lastRank prev (r :: rs)).getD 0 0
      = if TieBreaker.compare tb r prev = .eq then lastRank else i + 1 := by
  unfold ranksAux
  simp

theorem ranksAux_step (tb : TieBreaker) :
    ∀ (rs : List Row) (i lastRank : Nat) (prev : Row) (j : Nat),
      j + 1 < rs.length →
      (ranksAux tb i lastRank prev rs).getD (j + 1) 0
        = if TieBreaker.compare tb (rs.getD (j + 1) (0, []))
              (rs.getD j (0, [])) = .eq
          then (ranksAux tb i lastRank prev rs).getD j 0
          else i + j + 2
  | [], _, _, _, _, hj => by simp at hj
  | r :: rs, i, lastRank, prev, 0, hj => by
    have h1 : 0 < rs.length := by simpa using hj
    obtain ⟨r1, rs1, hr⟩ : ∃ r1 rs1, rs = r1 :: rs1 := by
      cases rs with
      | nil => simp at h1
      | cons x xs => exact ⟨x, xs, rfl⟩
    subst hr
    show (ranksAux tb i lastRank prev (r :: r1 :: rs1)).getD 1 0 = _
    unfold ranksAux
    simp only [List.getD_cons_succ, List.getD_cons_zero]
    rw [ranksAux_head tb rs1 (i + 1) _ r r1]
  | r :: rs, i, lastRank, prev, j + 1, hj => by
    have hj' : j + 1 < rs.length := by simpa using hj
    show (ranksAux tb i lastRank prev (r :: rs)).getD (j + 2) 0 = _
    unfold ranksAux
    simp only [List.getD_cons_succ]
    rw [ranksAux_step tb rs (i + 1) _ r j hj']
    have : i + 1 + j + 2 = i + (j + 1) + 2 := by omega
    rw [this]

theorem ranksAux_bounds (tb : TieBreaker) :
    ∀ (rs : List Row) (i lastRank : Nat) (prev : Row), lastRank ≤ i →
      (∀ x ∈ ranksAux tb i lastRank prev rs, lastRank ≤ x) ∧
      (ranksAux tb i lastRank prev rs).Sorted (· ≤ ·)
  | [], _, _, _, _ => ⟨fun x hx => by simp [ranksAux] at hx, by
      unfold ranksAux; exact List.sorted_nil⟩
  | r :: rs, i, lastRank, prev, hle => by
    set rk := if TieBreaker.compare tb r prev = .eq then lastRank else i + 1
      with hrk
    have hrk_ge : lastRank ≤ rk := by
      rw [hrk]; split
      · exact le_refl _
      · omega
    have hrk_le : rk ≤ i + 1 := by
      rw [hrk]; split
      · omega
      · exact le_refl _
    obtain ⟨hmem, hsort⟩ := ranksAux_bounds tb rs (i + 1) rk r hrk_le
    constructor
    · intro x hx
      unfold ranksAux at hx
      simp only [List.mem_cons] at hx
      rcases hx with hx | hx
      · rw [hx, ← hrk]; exact hrk_ge
      · exact le_trans hrk_ge (hmem x (by rw [← hrk] at hx; exact hx))
    · show List.Sorted _ (rk :: ranksAux tb (i + 1) rk r rs)
      rw [List.sorted_cons]
      exact ⟨fun b hb => hmem b hb, hsort⟩

theorem ranks_length (tb : TieBreaker) (l : List Row) :
    (ranks tb l).length = l.length := by
  cases l with
  | nil => rfl
  | cons r rs =>
    show (1 :: ranksAux tb 1 1 r rs).length = _
    simp [ranksAux_length tb rs]

theorem ranks_head (tb : TieBreaker) (l : List Row) (h : 0 < l.length) :
    (ranks tb l).getD 0 0 = 1 := by
  cases l with
  | nil => simp at h
  | cons r rs => rfl

theorem ranks_step (tb : TieBreaker) (l : List Row) (i : Nat)
    (h : i + 1 < l.length) :
    (ranks tb l).getD (i + 1) 0
      = if TieBreaker.compare tb (l.getD (i + 1) (0, [])) (l.getD i (0, []))
            = .eq
        then (ranks tb l).getD i 0
        else i + 2 := by
  cases l with
  | nil => simp at h
  | cons r rs =>
    cases i with
    | zero =>
      have h1 : 0 < rs.length := by simpa using h
      obtain ⟨r1, rs1, hr⟩ : ∃ r1 rs1, rs = r1 :: rs1 := by
        cases rs with
        | nil => simp at h1
        | cons x xs => exact ⟨x, xs, rfl⟩
      subst hr
      show (1 :: ranksAux tb 1 1 r (r1 :: rs1)).getD 1 0 = _
      simp only [List.getD_cons_succ, List.getD_cons_zero]
      rw [ranksAux_head tb rs1 1 1 r r1]
      rfl
    | succ j =>
      have hj : j + 1 < rs.length := by simpa using h
      show (1 :: ranksAux tb 1 1 r rs).getD (j + 2) 0 = _
      simp only [List.getD_cons_succ]
      rw [ranksAux_step tb rs 1 1 r j hj]
      have harith : (1 : Nat) + j + 2 = j + 1 + 2 := by omega
      rw [harith]
      have hrk : (ranks tb (r :: rs)).getD (j + 1) 0
          = (ranksAux tb 1 1 r rs).getD j 0 := by
        show (1 :: ranksAux tb 1 1 r rs).getD (j + 1) 0 = _
        simp only [List.getD_cons_succ]
      rw [hrk]

theorem ranks_sorted (tb : TieBreaker) (l : List Row) :
    (ranks tb l).Sorted (· ≤ ·) := by
  cases l with
  | nil => exact List.sorted_nil
  | cons r rs =>
    obtain ⟨hmem, hsort⟩ := ranksAux_bounds tb rs 1 1 r (le_refl 1)
    show List.Sorted _ (1 :: ranksAux tb 1 1 r rs)
    rw [List.sorted_cons]
    exact ⟨fun b hb => hmem b hb, hsort⟩

/-- **C2**: in a ranklist response the rows are sorted under the full sort
comparator (total score descending, then tie-breaker key, then user id
ascending); there is one rank per row; row 0 has rank 1; the rank of row
`i ≥ 1` equals the previous row's rank exactly when the tie-breaker
compares the two rows `Equal` and `i + 1` (1-based) otherwise — so the rank
numbers depend only on the tie-breaker comparison, never on the user-id
presentation refinement — and the rank column is non-decreasing. -/
theorem ranklist_sorted_and_rank_semantics (tb : TieBreaker)
    (rows l : List Row) :
    (sortRanklist tb rows).Pairwise (fun a b => sortCompare tb a b ≠ .gt) ∧
    (ranks tb l).length = l.length ∧
    (0 < l.length → (ranks tb l).getD 0 0 = 1) ∧
    (∀ i, i + 1 < l.length →
      (ranks tb l).getD (i + 1) 0
        = if TieBreaker.compare tb (l.getD (i + 1) (0, [])) (l.getD i (0, []))
              = .eq
          then (ranks tb l).getD i 0
          else i + 2) ∧
    (ranks tb l).Sorted (· ≤ ·) :=
  ⟨sortRanklist_pairwise tb rows, ranks_length tb l, ranks_head tb l,
    ranks_step tb l, ranks_sorted tb l⟩

theorem ranklist_sorted_and_rank_semantics_witness :
    (sortRanklist .Default [((2 : Nat), ([] : List ProblemResult)), (1, [])]
      ).Pairwise (fun a b => sortCompare .Default a b ≠ .gt) ∧
    (0 : Nat) <
      ([((1 : Nat), ([] : List ProblemResult)), (2, [])] : List Row).length ∧
    (ranks .Default
      [((1 : Nat), ([] : List ProblemResult)), (2, [])]).getD 0 0 = 1 ∧
    ((ranks .Default
        [((1 : Nat), ([] : List ProblemResult)), (2, [])]).getD 1 0
      = if TieBreaker.compare .Default
            (([((1 : Nat), ([] : List ProblemResult)), (2, [])] : List Row
              ).getD 1 (0, []))
            (([((1 : Nat), ([] : List ProblemResult)), (2, [])] : List Row
              ).getD 0 (0, [])) = .eq
        then (ranks .Default
          [((1 : Nat), ([] : List ProblemResult)), (2, [])]).getD 0 0
        else 2) ∧
    (ranks .Default
      [((1 : Nat), ([] : List ProblemResult)), (2, [])]).Sorted (· ≤ ·) := by
  have h := ranklist_sorted_and_rank_semantics .Default
    [((2 : Nat), ([] : List ProblemResult)), (1, [])]
    [((1 : Nat), ([] : List ProblemResult)), (2, [])]
  exact ⟨h.1, by decide, h.2.2.1 (by decide), h.2.2.2.1 0 (by decide),
    h.2.2.2.2⟩

end Yaoj
